import Mathlib

/-!
Verification of the ts-matrix dense linear-algebra library.

The repository provides a `Matrix` class (dense row-major grid of numbers),
a `Vector` class (src/src/Vector.ts) and a quaternion class.  The matrix
engine itself (src/src/Matrix.ts) is not among the provided sources — only
its test suite (src/test/Matrix.spec.ts) and the spec describe it — so the
matrix operations below are modelled from the spec (each such definition
says so in its doc comment).  The `Vector` operations are translated
directly from src/src/Vector.ts.

Numbers are modelled as rationals `ℚ` (the library does plain arithmetic on
JavaScript numbers; over `ℚ` the arithmetic is exact).
-/

/-- The Mathlib `Fin`-indexed square-matrix view, used to relate the
library's recursive determinant and adjugate-based inverse to `Matrix.det`
and `Matrix.adjugate`. -/
abbrev FMatrix (n : Nat) : Type := Matrix (Fin n) (Fin n) ℚ

namespace TsMatrix

/-- Modelled from the spec: the data model of the missing `Matrix` class
(spec §3): `rows`, `columns`, and a row-major grid `values`. -/
structure Matrix where
  rows : Nat
  columns : Nat
  values : List (List ℚ)
deriving DecidableEq

/-- Modelled from the spec: `at(row, col)` — element access (spec §4.1);
out-of-range access is a caller error, modelled with default 0. -/
def Matrix.at' (m : Matrix) (i j : Nat) : ℚ :=
  (m.values.getD i []).getD j 0

/-- Build the row-major grid of a `rows × columns` matrix from an index
function (helper for the modelled operations). -/
def Matrix.ofFn (r c : Nat) (f : Nat → Nat → ℚ) : Matrix :=
  ⟨r, c, (List.range r).map fun i => (List.range c).map fun j => f i j⟩

/-- Modelled from the spec: the constructor `Construct(rows, columns,
initialValues?)` (spec §4.1): a zero grid overlaid with `initialValues`,
truncated / zero-padded to the declared shape. -/
def Matrix.construct (r c : Nat) (init : List (List ℚ)) : Matrix :=
  Matrix.ofFn r c fun i j => (init.getD i []).getD j 0

/-- Delete row `r` and column `c` from an index-function view of a grid
(the minor extraction of spec §4.6, index-level). -/
def minorFun (f : Nat → Nat → ℚ) (r c : Nat) : Nat → Nat → ℚ :=
  fun i j => f (if i < r then i else i + 1) (if j < c then j else j + 1)

/-- Modelled from the spec: the recursive Laplace expansion along row 0
(spec §4.5).  The `1×1` base case is the single value; the degenerate `0×0`
determinant is 1 (never reached from spec-conforming inputs, whose
dimensions are ≥ 1). -/
def detFun : Nat → (Nat → Nat → ℚ) → ℚ
  | 0, _ => 1
  | 1, f => f 0 0
  | n + 2, f =>
      ∑ j ∈ Finset.range (n + 2), (-1 : ℚ) ^ j * f 0 j * detFun (n + 1) (minorFun f 0 j)

/-- Modelled from the spec: `multiply(other)` (spec §4.4): requires
`this.columns == other.rows`, else a dimension error; result is
`this.rows × other.columns` with cell `(i,j) = Σ_k this(i,k) * other(k,j)`. -/
def Matrix.multiply (a b : Matrix) : Except String Matrix :=
  if a.columns = b.rows then
    .ok (Matrix.ofFn a.rows b.columns fun i j =>
      ∑ k ∈ Finset.range a.columns, a.at' i k * b.at' k j)
  else .error "Dimension error! The columns of the first matrix must match the rows of the second!"

/-- Modelled from the spec: `determinant()` (spec §4.5): requires a square
matrix (else a "must be squared" error), computed by Laplace expansion. -/
def Matrix.determinant (m : Matrix) : Except String ℚ :=
  if m.rows = m.columns then .ok (detFun m.rows m.at')
  else .error "Matrix must be squared to calculate the determinant!"

/-- Modelled from the spec: `getCofactor(row, col)` (spec §4.6): requires a
square matrix; returns the minor, the `(n-1)×(n-1)` submatrix deleting
`row` and `col` (unsigned — the caller applies the sign). -/
def Matrix.getCofactor (m : Matrix) (r c : Nat) : Except String Matrix :=
  if m.rows = m.columns then
    .ok (Matrix.ofFn (m.rows - 1) (m.rows - 1) (minorFun m.at' r c))
  else .error "Matrix must be squared to get a cofactor!"

/-- Modelled from the spec: `inverse()` (spec §4.7): requires a square
matrix with nonzero determinant; the result is the adjugate (transposed
cofactor matrix) scaled by `1/det`, so cell `(i,j)` is
`(-1)^(j+i) * minorDet(j,i) / det`. -/
def Matrix.inverse (m : Matrix) : Except String Matrix :=
  if m.rows = m.columns then
    if detFun m.rows m.at' = 0 then
      .error "Determinant is 0, the matrix is not invertible!"
    else
      .ok (Matrix.ofFn m.rows m.rows fun i j =>
        (-1 : ℚ) ^ (j + i) * detFun (m.rows - 1) (minorFun m.at' j i)
          * (1 / detFun m.rows m.at'))
  else .error "Matrix must be squared to be inverted!"

/-- Modelled from the spec: `static identity(n)` (spec §4.2): the `n×n`
matrix with ones on the diagonal and zeros elsewhere. -/
def Matrix.identity (n : Nat) : Matrix :=
  Matrix.ofFn n n fun i j => if i = j then 1 else 0

/-- Modelled from the spec: `setAsIdentity()` (spec §4.2): requires a
square matrix, else a dimension error; sets the identity pattern (modelled
functionally: the mutated receiver is the returned matrix). -/
def Matrix.setAsIdentity (m : Matrix) : Except String Matrix :=
  if m.rows = m.columns then .ok (Matrix.identity m.rows)
  else .error "Dimension error! The matrix must be squared!"

/-- Modelled from the spec: `multiplyVector(vector)` (spec §4.4): requires
`vector.length == this.columns`, else a dimension error; treats the vector
as a column and returns, for each row `i`, `Σ_k this(i,k) * vector(k)`. -/
def Matrix.multiplyVector (m : Matrix) (v : List ℚ) : Except String (List ℚ) :=
  if v.length = m.columns then
    .ok ((List.range m.rows).map fun i =>
      ∑ k ∈ Finset.range m.columns, m.at' i k * v.getD k 0)
  else .error "Dimension error! The vector length must match the number of matrix columns!"

/-- Modelled from the spec: `equals(other)` (spec §4.1): true iff same
`rows`, same `columns`, and every corresponding cell is exactly equal. -/
def Matrix.equals (a b : Matrix) : Bool :=
  a.rows == b.rows && a.columns == b.columns &&
  ((List.range a.rows).all fun i =>
    (List.range a.columns).all fun j => decide (a.at' i j = b.at' i j))

/-- First index of `x` in a single row, scanning left to right. -/
def findInRow : List ℚ → ℚ → Option Nat
  | [], _ => none
  | a :: as, x => if a = x then some 0 else (findInRow as x).map (· + 1)

/-- First `(row, col)` position of `x` in a grid, row-major scan order. -/
def findInGrid : List (List ℚ) → ℚ → Option (Nat × Nat)
  | [], _ => none
  | r :: rs, x =>
    match findInRow r x with
    | some j => some (0, j)
    | none => (findInGrid rs x).map fun p => (p.1 + 1, p.2)

/-- Modelled from the spec: `indexOf(value)` (spec §4.1): `(row, col)` of
the first occurrence in row-major scan order, or `(-1, -1)` if absent. -/
def Matrix.indexOf (m : Matrix) (x : ℚ) : Int × Int :=
  match findInGrid m.values x with
  | some (i, j) => ((i : Int), (j : Int))
  | none => (-1, -1)

/-- All cells of the grid in row-major order. -/
def Matrix.cells (m : Matrix) : List ℚ := m.values.flatten

/-- Maximum of a list of rationals with sentinel 0 on the empty list. -/
def listMax : List ℚ → ℚ
  | [] => 0
  | a :: as => as.foldl max a

/-- Minimum of a list of rationals with sentinel 0 on the empty list. -/
def listMin : List ℚ → ℚ
  | [] => 0
  | a :: as => as.foldl min a

/-- Modelled from the spec: `max()` (spec §4.1): extremum over all cells;
reference behavior returns the sentinel 0 on a zero-cell matrix. -/
def Matrix.max (m : Matrix) : ℚ := listMax m.cells

/-- Modelled from the spec: `min()` (spec §4.1): extremum over all cells;
reference behavior returns the sentinel 0 on a zero-cell matrix. -/
def Matrix.min (m : Matrix) : ℚ := listMin m.cells

/-- Round half-up to `d` decimal places — the documented decimal tolerance
used by the inverse round-trip test (10 decimals) before comparing with the
identity. -/
def roundTo (d : Nat) (x : ℚ) : ℚ := (⌊x * 10 ^ d + 1 / 2⌋ : ℚ) / 10 ^ d

/-- Apply a function to every cell of the grid (used to state the rounding
step of the inverse round-trip). -/
def Matrix.mapCells (m : Matrix) (g : ℚ → ℚ) : Matrix :=
  ⟨m.rows, m.columns, m.values.map fun row => row.map g⟩

/-- The `Fin`-indexed view of an `n × n` index function. -/
def toMat (n : Nat) (f : Nat → Nat → ℚ) : FMatrix n :=
  Matrix.of fun i j => f i j

/-- The minor of spec §4.6 as a `Matrix` value: the `(n-1) × (n-1)`
submatrix of `m` deleting row `r` and column `c` (the `ok` payload of
`getCofactor`). -/
def Matrix.minorMatrix (m : Matrix) (r c : Nat) : Matrix :=
  Matrix.ofFn (m.rows - 1) (m.rows - 1) (minorFun m.at' r c)

/-- The value of a successful `determinant()` call (0 on the error case);
used to state the Laplace expansion of spec §4.5. -/
def Matrix.detOk (m : Matrix) : ℚ :=
  match m.determinant with
  | .ok d => d
  | .error _ => 0

/-- From src/src/Vector.ts (`set values`): the setter copies the new values
into the existing array cell by cell, up to the shorter of the two lengths;
remaining cells of the receiver keep their current value. -/
def setValues : List ℚ → List ℚ → List ℚ
  | [], _ => []
  | c :: cs, [] => c :: cs
  | _ :: cs, n :: ns => n :: setValues cs ns

/-- From src/src/Vector.ts (constructor): allocates a fresh array of zeros
of the length of `values` (defaulting to `[0]`), then copies `values` into
it through the setter.  The argument array is never stored. -/
def ctorValues (vals : Option (List ℚ)) : List ℚ :=
  let base := List.replicate (vals.getD [0]).length (0 : ℚ)
  match vals with
  | some v => setValues base v
  | none => base

/-- Reference heap for the `Vector` aliasing analysis: each entry is one
JavaScript array (a `_values` field); a `Vector` object holds the index of
its array. -/
abbrev Heap := List (List ℚ)

/-- From src/src/Vector.ts: `new Vector(values?)` — allocates a fresh array
on the heap and returns its reference. -/
def newVector (h : Heap) (vals : Option (List ℚ)) : Heap × Nat :=
  (h ++ [ctorValues vals], h.length)

/-- From src/src/Vector.ts (`addAValue`): `this.values.push(0)` mutates the
receiver's array in place, then `return new Vector(this.values)` builds a
fresh `Vector` from the mutated contents. -/
def addAValue (h : Heap) (self : Nat) : Heap × Nat :=
  let h1 := h.set self (h.getD self [] ++ [0])
  newVector h1 (some (h1.getD self []))

/-- From src/src/Vector.ts: the `rows` getter is `this.values.length`. -/
def vecRows (h : Heap) (r : Nat) : Nat := (h.getD r []).length

/-- From src/src/Vector.ts: the `rows` getter of a value-level vector
(`this.values.length`). -/
def Vector.rows (u : List ℚ) : Nat := u.length

/-- From src/src/Vector.ts (`divide`): requires equal `rows`, else throws;
otherwise maps each value `val` at index `i` to `val / vector.at(i)`,
returning `val` unchanged when `vector.at(i) === 0`. -/
def Vector.divide (u v : List ℚ) : Except String (List ℚ) :=
  if Vector.rows u = Vector.rows v then
    .ok (u.mapIdx fun i val => if v.getD i 0 = 0 then val else val / v.getD i 0)
  else .error "Vectors don't have the same dimension!"

theorem Matrix.rows_ofFn (r c : Nat) (f : Nat → Nat → ℚ) : (Matrix.ofFn r c f).rows = r := rfl

theorem Matrix.columns_ofFn (r c : Nat) (f : Nat → Nat → ℚ) : (Matrix.ofFn r c f).columns = c := rfl

theorem Matrix.at'_ofFn (r c : Nat) (f : Nat → Nat → ℚ) (i j : Nat)
    (hi : i < r) (hj : j < c) : (Matrix.ofFn r c f).at' i j = f i j := by
  simp [Matrix.ofFn, Matrix.at', List.getD_eq_getElem?_getD, List.getElem?_map,
    List.getElem?_range, hi, hj]

theorem Matrix.rows_construct (r c : Nat) (init : List (List ℚ)) :
    (Matrix.construct r c init).rows = r := rfl

theorem Matrix.columns_construct (r c : Nat) (init : List (List ℚ)) :
    (Matrix.construct r c init).columns = c := rfl

theorem Matrix.at'_construct (r c : Nat) (init : List (List ℚ)) (i j : Nat)
    (hi : i < r) (hj : j < c) :
    (Matrix.construct r c init).at' i j = (init.getD i []).getD j 0 :=
  Matrix.at'_ofFn _ _ _ i j hi hj

theorem detFun_succ (n : Nat) (f : Nat → Nat → ℚ) :
    detFun (n + 1) f =
      ∑ j ∈ Finset.range (n + 1), (-1 : ℚ) ^ j * f 0 j * detFun n (minorFun f 0 j) := by
  cases n with
  | zero => simp [detFun]
  | succ m => rfl

theorem val_succAbove {n : Nat} (j : Fin (n + 1)) (k : Fin n) :
    (j.succAbove k : ℕ) = if (k : ℕ) < (j : ℕ) then (k : ℕ) else (k : ℕ) + 1 := by
  by_cases h : (k : ℕ) < (j : ℕ)
  · rw [Fin.succAbove_of_castSucc_lt _ _ (by simpa [Fin.lt_def] using h), if_pos h,
      Fin.coe_castSucc]
  · rw [Fin.succAbove_of_le_castSucc _ _ (by simp [Fin.le_def]; omega), if_neg h,
      Fin.val_succ]

theorem toMat_minor {n : Nat} (f : Nat → Nat → ℚ) (r c : Fin (n + 1)) :
    toMat n (minorFun f r c) = (toMat (n + 1) f).submatrix r.succAbove c.succAbove := by
  ext i k
  simp only [toMat, Matrix.of_apply, Matrix.submatrix_apply, minorFun, val_succAbove]

theorem detFun_eq_det : ∀ (n : Nat) (f : Nat → Nat → ℚ), detFun n f = (toMat n f).det := by
  intro n
  induction n with
  | zero => intro f; rw [Matrix.det_fin_zero]; rfl
  | succ n ih =>
    intro f
    rw [detFun_succ, Matrix.det_succ_row_zero,
      ← Fin.sum_univ_eq_sum_range
        (fun j => (-1 : ℚ) ^ j * f 0 j * detFun n (minorFun f 0 j)) (n + 1)]
    refine Finset.sum_congr rfl fun j _ => ?_
    have h0 : ((0 : Fin (n + 1)) : ℕ) = 0 := rfl
    rw [ih, ← h0, toMat_minor, Fin.succAbove_zero]
    rfl

theorem detFun_congr {n : Nat} {f g : Nat → Nat → ℚ}
    (h : ∀ i < n, ∀ j < n, f i j = g i j) : detFun n f = detFun n g := by
  rw [detFun_eq_det, detFun_eq_det]
  congr 1
  ext i k
  exact h i i.isLt k k.isLt

theorem mul_inverse_cells {n : Nat} (f : Nat → Nat → ℚ) (hd : detFun n f ≠ 0)
    {i j : Nat} (hi : i < n) (hj : j < n) :
    ∑ k ∈ Finset.range n,
        f i k * ((-1 : ℚ) ^ (j + k) * detFun (n - 1) (minorFun f j k) * (1 / detFun n f))
      = if i = j then 1 else 0 := by
  obtain ⟨m, rfl⟩ : ∃ m, n = m + 1 := ⟨n - 1, by omega⟩
  simp only [Nat.add_sub_cancel]
  set A : FMatrix (m + 1) := toMat (m + 1) f with hA
  have hdA : A.det ≠ 0 := by rw [hA, ← detFun_eq_det]; exact hd
  set i' : Fin (m + 1) := ⟨i, hi⟩ with hi'
  set j' : Fin (m + 1) := ⟨j, hj⟩ with hj'
  have key : ∀ k : Fin (m + 1),
      f i (k : ℕ) *
          ((-1 : ℚ) ^ (j + (k : ℕ)) * detFun m (minorFun f j (k : ℕ))
            * (1 / detFun (m + 1) f))
        = A i' k * A.adjugate k j' * (1 / A.det) := by
    intro k
    have h1 : detFun m (minorFun f j (k : ℕ))
        = (A.submatrix j'.succAbove k.succAbove).det := by
      have hjv : (j' : ℕ) = j := rfl
      rw [detFun_eq_det]
      congr 1
      rw [hA, ← hjv, toMat_minor]
    have hAik : A i' k = f i (k : ℕ) := rfl
    have hdet : A.det = detFun (m + 1) f := (detFun_eq_det (m + 1) f).symm
    rw [Matrix.adjugate_fin_succ_eq_det_submatrix, h1, hAik, hdet]
    have hjv : (j' : ℕ) = j := rfl
    rw [hjv]
    ring
  calc
    ∑ k ∈ Finset.range (m + 1),
        f i k * ((-1 : ℚ) ^ (j + k) * detFun m (minorFun f j k)
          * (1 / detFun (m + 1) f))
      = ∑ k : Fin (m + 1),
          f i (k : ℕ) * ((-1 : ℚ) ^ (j + (k : ℕ)) * detFun m (minorFun f j (k : ℕ))
            * (1 / detFun (m + 1) f)) :=
        (Fin.sum_univ_eq_sum_range
          (fun k => f i k * ((-1 : ℚ) ^ (j + k) * detFun m (minorFun f j k)
            * (1 / detFun (m + 1) f))) (m + 1)).symm
    _ = ∑ k : Fin (m + 1), A i' k * A.adjugate k j' * (1 / A.det) :=
        Finset.sum_congr rfl fun k _ => key k
    _ = (∑ k : Fin (m + 1), A i' k * A.adjugate k j') * (1 / A.det) := by
        rw [Finset.sum_mul]
    _ = (A * A.adjugate) i' j' * (1 / A.det) := by rw [Matrix.mul_apply]
    _ = (A.det • (1 : FMatrix (m + 1))) i' j' * (1 / A.det) := by rw [Matrix.mul_adjugate]
    _ = A.det * (if i' = j' then 1 else 0) * (1 / A.det) := by
        rw [Matrix.smul_apply, Matrix.one_apply, smul_eq_mul]
    _ = if i = j then 1 else 0 := by
        have hij : (i' = j') ↔ (i = j) := by
          rw [hi', hj', Fin.mk.injEq]
        by_cases h : i = j
        · rw [if_pos (hij.mpr h), if_pos h]
          field_simp
        · rw [if_neg fun hh => h (hij.mp hh), if_neg h]
          ring

theorem Matrix.equals_true_iff (a b : Matrix) :
    a.equals b = true ↔
      a.rows = b.rows ∧ a.columns = b.columns ∧
        ∀ i < a.rows, ∀ j < a.columns, a.at' i j = b.at' i j := by
  simp [Matrix.equals, List.all_eq_true, List.mem_range, and_assoc]

theorem Matrix.mapCells_ofFn (r c : Nat) (f : Nat → Nat → ℚ) (g : ℚ → ℚ) :
    (Matrix.ofFn r c f).mapCells g = Matrix.ofFn r c fun i j => g (f i j) := by
  simp [Matrix.mapCells, Matrix.ofFn, List.map_map, Function.comp]

theorem roundTo_zero (d : Nat) : roundTo d 0 = 0 := by
  have h1 : ((0 : ℚ) * 10 ^ d + 1 / 2) = 1 / 2 := by ring
  have h2 : ⌊(1 : ℚ) / 2⌋ = 0 := by
    rw [Int.floor_eq_iff] <;> norm_num
  rw [roundTo, h1, h2]
  simp

theorem roundTo_one (d : Nat) : roundTo d 1 = 1 := by
  have h1 : ((1 : ℚ) * 10 ^ d + 1 / 2) = 10 ^ d + 1 / 2 := by ring
  have h2 : ⌊(10 : ℚ) ^ d + 1 / 2⌋ = 10 ^ d := by
    rw [Int.floor_eq_iff] <;> push_cast <;> norm_num
  rw [roundTo, h1, h2]
  push_cast
  have h3 : ((10 : ℚ) ^ d) ≠ 0 := by positivity
  field_simp

theorem toMat_identity (n : Nat) : toMat n (Matrix.identity n).at' = (1 : FMatrix n) := by
  ext i j
  show (Matrix.identity n).at' i j = (1 : FMatrix n) i j
  rw [Matrix.identity, Matrix.at'_ofFn _ _ _ _ _ i.isLt j.isLt, Matrix.one_apply]
  simp [Fin.ext_iff]

theorem detFun_identity (n : Nat) : detFun n (Matrix.identity n).at' = 1 := by
  rw [detFun_eq_det, toMat_identity, Matrix.det_one]

theorem findInRow_eq_none_iff (r : List ℚ) (x : ℚ) :
    findInRow r x = none ↔ ∀ v ∈ r, v ≠ x := by
  induction r with
  | nil => simp [findInRow]
  | cons a as ih =>
    by_cases h : a = x
    · simp [findInRow, h]
    · simp [findInRow, h, ih]

theorem findInRow_eq_some (r : List ℚ) (x : ℚ) :
    ∀ j, findInRow r x = some j →
      j < r.length ∧ r.getD j 0 = x ∧ ∀ k < j, r.getD k 0 ≠ x := by
  induction r with
  | nil => intro j h; simp [findInRow] at h
  | cons a as ih =>
    intro j h
    by_cases ha : a = x
    · rw [findInRow, if_pos ha] at h
      obtain rfl : (0 : Nat) = j := by simpa using h
      exact ⟨by simp, by simpa using ha, fun k hk => absurd hk (by omega)⟩
    · rw [findInRow, if_neg ha] at h
      obtain ⟨j0, hj0, rfl⟩ : ∃ j0, findInRow as x = some j0 ∧ j = j0 + 1 := by
        cases hf : findInRow as x with
        | none => rw [hf] at h; simp at h
        | some j0 =>
          rw [hf] at h
          simp only [Option.map_some', Option.some.injEq] at h
          exact ⟨j0, rfl, h.symm⟩
      obtain ⟨h1, h2, h3⟩ := ih j0 hj0
      refine ⟨by simpa using h1, by simpa using h2, ?_⟩
      intro k hk
      cases k with
      | zero => simpa using ha
      | succ k' => simpa using h3 k' (by omega)

theorem findInGrid_eq_none_iff (g : List (List ℚ)) (x : ℚ) :
    findInGrid g x = none ↔ ∀ row ∈ g, ∀ v ∈ row, v ≠ x := by
  induction g with
  | nil => simp [findInGrid]
  | cons r rs ih =>
    rw [findInGrid]
    cases hf : findInRow r x with
    | some j =>
      simp only [Option.some.injEq]
      constructor
      · intro h; exact absurd h (by simp)
      · intro h
        obtain ⟨h1, h2, _⟩ := findInRow_eq_some r x j hf
        have hx : r.getD j 0 ∈ r := by
          rw [List.getD_eq_getElem r 0 h1]
          exact List.getElem_mem h1
        exact absurd h2 (h r (List.mem_cons_self r rs) _ hx)
    | none =>
      simp only [Option.map_eq_none', ih]
      constructor
      · intro h
        intro row hrow v hv
        rcases List.mem_cons.mp hrow with rfl | hrow
        · exact (findInRow_eq_none_iff row x).mp hf v hv
        · exact h row hrow v hv
      · intro h row hrow v hv
        exact h row (List.mem_cons_of_mem r hrow) v hv

theorem findInGrid_eq_some (g : List (List ℚ)) (x : ℚ) :
    ∀ i j, findInGrid g x = some (i, j) →
      i < g.length ∧ j < (g.getD i []).length ∧ (g.getD i []).getD j 0 = x ∧
        (∀ i' < i, ∀ v ∈ g.getD i' [], v ≠ x) ∧
        (∀ j' < j, (g.getD i []).getD j' 0 ≠ x) := by
  induction g with
  | nil => intro i j h; simp [findInGrid] at h
  | cons r rs ih =>
    intro i j h
    rw [findInGrid] at h
    cases hf : findInRow r x with
    | some j0 =>
      rw [hf] at h
      simp only [Option.some.injEq, Prod.mk.injEq] at h
      obtain ⟨rfl, rfl⟩ : 0 = i ∧ j0 = j := h
      obtain ⟨h1, h2, h3⟩ := findInRow_eq_some r x j0 hf
      exact ⟨by simp, by simpa using h1, by simpa using h2,
        fun i' hi' => absurd hi' (by omega), by simpa using h3⟩
    | none =>
      rw [hf] at h
      cases hg : findInGrid rs x with
      | none => rw [hg] at h; simp at h
      | some p =>
        obtain ⟨i0, j0⟩ := p
        rw [hg] at h
        simp only [Option.map_some', Option.some.injEq, Prod.mk.injEq] at h
        obtain ⟨rfl, rfl⟩ : i0 + 1 = i ∧ j0 = j := h
        obtain ⟨h1, h2, h3, h4, h5⟩ := ih i0 j0 hg
        refine ⟨by simpa using h1, by simpa using h2, by simpa using h3, ?_, by simpa using h5⟩
        intro i' hi'
        cases i' with
        | zero =>
          intro v hv
          exact (findInRow_eq_none_iff r x).mp hf v (by simpa using hv)
        | succ i'' =>
          intro v hv
          exact h4 i'' (by omega) v (by simpa using hv)

theorem init_le_foldl_max : ∀ (l : List ℚ) (b : ℚ), b ≤ l.foldl max b := by
  intro l
  induction l with
  | nil => intro b; simp
  | cons a as ih =>
    intro b
    rw [List.foldl_cons]
    exact le_trans (le_max_left b a) (ih (max b a))

theorem mem_le_foldl_max : ∀ (l : List ℚ) (b v : ℚ), v ∈ l → v ≤ l.foldl max b := by
  intro l
  induction l with
  | nil => intro b v h; simp at h
  | cons a as ih =>
    intro b v h
    rw [List.foldl_cons]
    rcases List.mem_cons.mp h with rfl | h
    · exact le_trans (le_max_right b v) (init_le_foldl_max as _)
    · exact ih _ v h

theorem foldl_max_mem : ∀ (l : List ℚ) (b : ℚ), l.foldl max b = b ∨ l.foldl max b ∈ l := by
  intro l
  induction l with
  | nil => intro b; left; rfl
  | cons a as ih =>
    intro b
    rw [List.foldl_cons]
    rcases ih (max b a) with h | h
    · rcases max_choice b a with hb | hb
      · left; rw [h, hb]
      · right; rw [h, hb]; exact List.mem_cons_self a as
    · right; exact List.mem_cons_of_mem a h

theorem foldl_min_le_init : ∀ (l : List ℚ) (b : ℚ), l.foldl min b ≤ b := by
  intro l
  induction l with
  | nil => intro b; simp
  | cons a as ih =>
    intro b
    rw [List.foldl_cons]
    exact le_trans (ih (min b a)) (min_le_left b a)

theorem foldl_min_le_mem : ∀ (l : List ℚ) (b v : ℚ), v ∈ l → l.foldl min b ≤ v := by
  intro l
  induction l with
  | nil => intro b v h; simp at h
  | cons a as ih =>
    intro b v h
    rw [List.foldl_cons]
    rcases List.mem_cons.mp h with rfl | h
    · exact le_trans (foldl_min_le_init as _) (min_le_right b v)
    · exact ih _ v h

theorem foldl_min_mem : ∀ (l : List ℚ) (b : ℚ), l.foldl min b = b ∨ l.foldl min b ∈ l := by
  intro l
  induction l with
  | nil => intro b; left; rfl
  | cons a as ih =>
    intro b
    rw [List.foldl_cons]
    rcases ih (min b a) with h | h
    · rcases min_choice b a with hb | hb
      · left; rw [h, hb]
      · right; rw [h, hb]; exact List.mem_cons_self a as
    · right; exact List.mem_cons_of_mem a h

theorem listMax_spec (l : List ℚ) (hl : l ≠ []) :
    listMax l ∈ l ∧ ∀ v ∈ l, v ≤ listMax l := by
  obtain ⟨a, as, rfl⟩ := List.exists_cons_of_ne_nil hl
  constructor
  · rcases foldl_max_mem as a with h | h
    · rw [listMax, h]; exact List.mem_cons_self a as
    · exact List.mem_cons_of_mem a h
  · intro v hv
    rcases List.mem_cons.mp hv with rfl | hv
    · exact init_le_foldl_max as v
    · exact mem_le_foldl_max as a v hv

theorem listMin_spec (l : List ℚ) (hl : l ≠ []) :
    listMin l ∈ l ∧ ∀ v ∈ l, listMin l ≤ v := by
  obtain ⟨a, as, rfl⟩ := List.exists_cons_of_ne_nil hl
  constructor
  · rcases foldl_min_mem as a with h | h
    · rw [listMin, h]; exact List.mem_cons_self a as
    · exact List.mem_cons_of_mem a h
  · intro v hv
    rcases List.mem_cons.mp hv with rfl | hv
    · exact foldl_min_le_init as v
    · exact foldl_min_le_mem as a v hv

theorem setValues_replicate (v : List ℚ) :
    setValues (List.replicate v.length 0) v = v := by
  induction v with
  | nil => rfl
  | cons a as ih => simp [List.replicate_succ, setValues, ih]

theorem ctorValues_some (v : List ℚ) : ctorValues (some v) = v := by
  simp [ctorValues, setValues_replicate]

theorem getD_map_range {g : Nat → ℚ} {n i : Nat} (d : ℚ) (hi : i < n) :
    ((List.range n).map g).getD i d = g i := by
  simp [List.getD_eq_getElem?_getD, List.getElem?_map, List.getElem?_range, hi]

theorem Matrix.detOk_of_square (m : Matrix) (h : m.rows = m.columns) :
    m.detOk = detFun m.rows m.at' := by
  have hd : m.determinant = .ok (detFun m.rows m.at') := by
    rw [Matrix.determinant, if_pos h]
  rw [Matrix.detOk, hd]

theorem Matrix.determinant_ok_of_square (m : Matrix) (h : m.rows = m.columns) :
    m.determinant = .ok m.detOk := by
  rw [Matrix.detOk_of_square m h, Matrix.determinant, if_pos h]

/-- C1: for all matrices `A`, `B`: `A.multiply(B)` fails with a dimension
error when `A.columns ≠ B.rows`; otherwise it returns a new
`A.rows × B.columns` matrix whose cell `(i,j)` is `Σ_k A(i,k) * B(k,j)`;
in particular the 3×3 all-rows-`[1,2,3]` matrix times the 3×3 all-10 matrix
is the 3×3 all-60 matrix. -/
theorem C1_multiply :
    (∀ a b : Matrix,
      (a.columns ≠ b.rows → ∃ e, a.multiply b = .error e) ∧
      (a.columns = b.rows → ∃ p, a.multiply b = .ok p ∧ p.rows = a.rows ∧
        p.columns = b.columns ∧ ∀ i < a.rows, ∀ j < b.columns,
          p.at' i j = ∑ k ∈ Finset.range a.columns, a.at' i k * b.at' k j)) ∧
    (∃ p, (Matrix.construct 3 3 [[1,2,3],[1,2,3],[1,2,3]]).multiply
        (Matrix.construct 3 3 [[10,10,10],[10,10,10],[10,10,10]]) = .ok p ∧
      p.equals (Matrix.construct 3 3 [[60,60,60],[60,60,60],[60,60,60]]) = true) := by
  have hgen : ∀ a b : Matrix,
      (a.columns ≠ b.rows → ∃ e, a.multiply b = .error e) ∧
      (a.columns = b.rows → ∃ p, a.multiply b = .ok p ∧ p.rows = a.rows ∧
        p.columns = b.columns ∧ ∀ i < a.rows, ∀ j < b.columns,
          p.at' i j = ∑ k ∈ Finset.range a.columns, a.at' i k * b.at' k j) := by
    intro a b
    constructor
    · intro h
      exact ⟨_, by rw [Matrix.multiply, if_neg h]⟩
    · intro h
      refine ⟨Matrix.ofFn a.rows b.columns fun i j =>
          ∑ k ∈ Finset.range a.columns, a.at' i k * b.at' k j,
        by rw [Matrix.multiply, if_pos h], rfl, rfl, ?_⟩
      intro i hi j hj
      exact Matrix.at'_ofFn _ _ _ i j hi hj
  refine ⟨hgen, ?_⟩
  obtain ⟨p, hp, hrows, hcols, hcells⟩ :=
    (hgen (Matrix.construct 3 3 [[1,2,3],[1,2,3],[1,2,3]])
      (Matrix.construct 3 3 [[10,10,10],[10,10,10],[10,10,10]])).2 rfl
  refine ⟨p, hp, ?_⟩
  rw [Matrix.equals_true_iff]
  refine ⟨by rw [hrows]; rfl, by rw [hcols]; rfl, ?_⟩
  intro i hi j hj
  have hi3 : i < 3 := by rw [hrows] at hi; exact hi
  have hj3 : j < 3 := by rw [hcols] at hj; exact hj
  rw [hcells i hi3 j hj3]
  interval_cases i <;> interval_cases j <;>
    norm_num [Matrix.at'_construct, Matrix.rows_construct, Matrix.columns_construct,
      Finset.sum_range_succ, List.getD]

/-- Witness for C1: a concrete dimension mismatch fails, and a compatible
concrete product succeeds with the stated shape and cells. -/
theorem C1_multiply_witness :
    (∃ e, (Matrix.construct 1 2 []).multiply (Matrix.construct 3 4 []) = .error e) ∧
    (∃ p, (Matrix.construct 2 3 []).multiply (Matrix.construct 3 4 []) = .ok p ∧
      p.rows = 2 ∧ p.columns = 4 ∧ ∀ i < 2, ∀ j < 4,
        p.at' i j = ∑ k ∈ Finset.range 3,
          (Matrix.construct 2 3 []).at' i k * (Matrix.construct 3 4 []).at' k j) :=
  ⟨(C1_multiply.1 _ _).1 (by decide), (C1_multiply.1 _ _).2 rfl⟩

/-- C2: `determinant()` fails with a "must be square" error on non-square
matrices; on `1×1` it is the single value; for `n ≥ 2` it is the Laplace
expansion along row 0 over the minors (deleting row 0 and column `j`);
concretely `det [[2,5,6],[3,6,1],[7,4,9]] = -180` and `det [[15]] = 15`. -/
theorem C2_determinant :
    (∀ m : Matrix,
      (m.rows ≠ m.columns → ∃ e, m.determinant = .error e) ∧
      (m.rows = m.columns →
        (m.rows = 1 → m.determinant = .ok (m.at' 0 0)) ∧
        (2 ≤ m.rows →
          (∀ j < m.rows, m.getCofactor 0 j = .ok (m.minorMatrix 0 j) ∧
            (m.minorMatrix 0 j).determinant = .ok ((m.minorMatrix 0 j).detOk)) ∧
          m.determinant = .ok (∑ j ∈ Finset.range m.rows,
            (-1 : ℚ) ^ j * m.at' 0 j * (m.minorMatrix 0 j).detOk)))) ∧
    (Matrix.construct 3 3 [[2,5,6],[3,6,1],[7,4,9]]).determinant = .ok (-180) ∧
    (Matrix.construct 1 1 [[15]]).determinant = .ok 15 := by
  refine ⟨?_, ?_, ?_⟩
  · intro m
    constructor
    · intro h
      exact ⟨_, by rw [Matrix.determinant, if_neg h]⟩
    · intro h
      constructor
      · intro h1
        rw [Matrix.determinant, if_pos h, h1]
        rfl
      · intro h2
        constructor
        · intro j _
          constructor
          · rw [Matrix.getCofactor, if_pos h]
            rfl
          · exact Matrix.determinant_ok_of_square _ rfl
        · rw [Matrix.determinant, if_pos h]
          obtain ⟨n, hn⟩ : ∃ n, m.rows = n + 1 := ⟨m.rows - 1, by omega⟩
          rw [hn, detFun_succ]
          congr 1
          refine Finset.sum_congr rfl fun j hj => ?_
          have hjn : j < n + 1 := Finset.mem_range.mp hj
          congr 1
          rw [Matrix.detOk_of_square _ rfl]
          have hrows : (m.minorMatrix 0 j).rows = n := by
            rw [Matrix.minorMatrix, Matrix.rows_ofFn, hn]
            omega
          rw [hrows]
          refine detFun_congr ?_
          intro i hi k hk
          rw [Matrix.minorMatrix, Matrix.at'_ofFn _ _ _ _ _ (by omega) (by omega)]
  · have h : (Matrix.construct 3 3 [[2,5,6],[3,6,1],[7,4,9]]).determinant
        = .ok (detFun 3 (Matrix.construct 3 3 [[2,5,6],[3,6,1],[7,4,9]]).at') := rfl
    rw [h]
    norm_num [detFun, minorFun, Matrix.at'_construct, Finset.sum_range_succ, List.getD]
  · have h : (Matrix.construct 1 1 [[15]]).determinant
        = .ok (detFun 1 (Matrix.construct 1 1 [[15]]).at') := rfl
    rw [h]
    norm_num [detFun, Matrix.at'_construct, List.getD]

/-- Witness for C2: concrete instances of the three guarded branches (a
non-square failure, the 1×1 base case, and the `n ≥ 2` Laplace branch). -/
theorem C2_determinant_witness :
    (∃ e, (Matrix.construct 2 4 []).determinant = .error e) ∧
    (Matrix.construct 1 1 [[15]]).determinant = .ok ((Matrix.construct 1 1 [[15]]).at' 0 0) ∧
    (Matrix.construct 2 2 [[1,2],[3,4]]).determinant =
      .ok (∑ j ∈ Finset.range 2, (-1 : ℚ) ^ j * (Matrix.construct 2 2 [[1,2],[3,4]]).at' 0 j *
        ((Matrix.construct 2 2 [[1,2],[3,4]]).minorMatrix 0 j).detOk) :=
  ⟨(C2_determinant.1 _).1 (by decide),
   ((C2_determinant.1 _).2 rfl).1 rfl,
   (((C2_determinant.1 _).2 rfl).2 (by decide)).2⟩

/-- C3: `inverse()` fails with a not-square error on non-square input and
with a "not invertible" error exactly when the determinant is zero; for a
square matrix with nonzero determinant it succeeds, and the product
`A.multiply(A.inverse())`, with every cell rounded to the documented
tolerance of 10 decimals, equals `Matrix.identity(n)`. -/
theorem C3_inverse :
    ∀ a : Matrix,
      (a.rows ≠ a.columns →
        a.inverse = .error "Matrix must be squared to be inverted!") ∧
      (a.rows = a.columns →
        (a.determinant = .ok 0 →
          a.inverse = .error "Determinant is 0, the matrix is not invertible!") ∧
        (∀ d, a.determinant = .ok d → d ≠ 0 →
          ∃ ainv p, a.inverse = .ok ainv ∧ a.multiply ainv = .ok p ∧
            (p.mapCells (roundTo 10)).equals (Matrix.identity a.rows) = true)) := by
  intro a
  constructor
  · intro h
    rw [Matrix.inverse, if_neg h]
  · intro h
    have hdet : a.determinant = .ok (detFun a.rows a.at') := by
      rw [Matrix.determinant, if_pos h]
    constructor
    · intro h0
      rw [hdet] at h0
      have h0' : detFun a.rows a.at' = 0 := by injection h0
      rw [Matrix.inverse, if_pos h, if_pos h0']
    · intro d hd hdne
      have hdval : detFun a.rows a.at' = d := by
        rw [hdet] at hd
        injection hd
      have hne : detFun a.rows a.at' ≠ 0 := by rw [hdval]; exact hdne
      set ainv : Matrix := Matrix.ofFn a.rows a.rows fun i j =>
        (-1 : ℚ) ^ (j + i) * detFun (a.rows - 1) (minorFun a.at' j i)
          * (1 / detFun a.rows a.at') with hainv
      have hinv : a.inverse = .ok ainv := by
        rw [Matrix.inverse, if_pos h, if_neg hne]
      have hcomp : a.columns = ainv.rows := h.symm
      set p : Matrix := Matrix.ofFn a.rows ainv.columns fun i j =>
        ∑ k ∈ Finset.range a.columns, a.at' i k * ainv.at' k j with hp
      have hmul : a.multiply ainv = .ok p := by
        rw [Matrix.multiply, if_pos hcomp]
      refine ⟨ainv, p, hinv, hmul, ?_⟩
      rw [Matrix.equals_true_iff]
      refine ⟨rfl, rfl, ?_⟩
      intro i hi j hj
      have hi' : i < a.rows := hi
      have hj' : j < a.rows := hj
      have hmap : p.mapCells (roundTo 10) = Matrix.ofFn a.rows ainv.columns fun i j =>
          roundTo 10 (∑ k ∈ Finset.range a.columns, a.at' i k * ainv.at' k j) := by
        rw [hp, Matrix.mapCells_ofFn]
      rw [hmap, Matrix.at'_ofFn a.rows ainv.columns _ i j hi' hj',
        Matrix.identity, Matrix.at'_ofFn a.rows a.rows _ i j hi' hj']
      have hsum : (∑ k ∈ Finset.range a.columns, a.at' i k * ainv.at' k j)
          = if i = j then 1 else 0 := by
        have hcols : a.columns = a.rows := h.symm
        rw [hcols]
        have hterm : ∀ k ∈ Finset.range a.rows, a.at' i k * ainv.at' k j
            = a.at' i k * ((-1 : ℚ) ^ (j + k) * detFun (a.rows - 1) (minorFun a.at' j k)
              * (1 / detFun a.rows a.at')) := by
          intro k hk
          rw [hainv, Matrix.at'_ofFn _ _ _ k j (Finset.mem_range.mp hk) hj']
        rw [Finset.sum_congr rfl hterm]
        exact mul_inverse_cells a.at' hne hi' hj'
      rw [hsum]
      by_cases hij : i = j
      · rw [if_pos hij, roundTo_one]
      · rw [if_neg hij, roundTo_zero]

/-- Witness for C3 at the concrete invertible matrix `[[1,2],[3,4]]`
(determinant `-2`). -/
theorem C3_inverse_witness :
    ∃ ainv p, (Matrix.construct 2 2 [[1,2],[3,4]]).inverse = .ok ainv ∧
      (Matrix.construct 2 2 [[1,2],[3,4]]).multiply ainv = .ok p ∧
      (p.mapCells (roundTo 10)).equals
        (Matrix.identity (Matrix.construct 2 2 [[1,2],[3,4]]).rows) = true := by
  have hdet : (Matrix.construct 2 2 [[1,2],[3,4]]).determinant = .ok (-2) := by
    have h : (Matrix.construct 2 2 [[1,2],[3,4]]).determinant
        = .ok (detFun 2 (Matrix.construct 2 2 [[1,2],[3,4]]).at') := rfl
    rw [h]
    norm_num [detFun, minorFun, Matrix.at'_construct, Finset.sum_range_succ, List.getD]
  exact ((C3_inverse _).2 rfl).2 (-2) hdet (by norm_num)

/-- C4: `Matrix.identity(n)` is the `n×n` matrix with ones on the diagonal
and zeros elsewhere, equivalent to constructing an `n×n` zero matrix and
calling `setAsIdentity()`, and its determinant is exactly 1 for `n ≥ 1`. -/
theorem C4_identity :
    ∀ n : Nat,
      (Matrix.identity n).rows = n ∧ (Matrix.identity n).columns = n ∧
      (∀ i < n, ∀ j < n,
        (Matrix.identity n).at' i j = if i = j then 1 else 0) ∧
      (Matrix.construct n n []).setAsIdentity = .ok (Matrix.identity n) ∧
      (1 ≤ n → (Matrix.identity n).determinant = .ok 1) := by
  intro n
  refine ⟨rfl, rfl, ?_, ?_, ?_⟩
  · intro i hi j hj
    exact Matrix.at'_ofFn _ _ _ i j hi hj
  · rw [Matrix.setAsIdentity,
      if_pos (show (Matrix.construct n n []).rows = (Matrix.construct n n []).columns
        from rfl)]
    rfl
  · intro _
    rw [Matrix.determinant,
      if_pos (show (Matrix.identity n).rows = (Matrix.identity n).columns from rfl),
      show (Matrix.identity n).rows = n from rfl, detFun_identity]

/-- Witness for C4 at `n = 3`. -/
theorem C4_identity_witness :
    (Matrix.identity 3).at' 0 1 = 0 ∧ (Matrix.identity 3).determinant = .ok 1 := by
  refine ⟨?_, (C4_identity 3).2.2.2.2 (by norm_num)⟩
  have h := (C4_identity 3).2.2.1 0 (by norm_num) 1 (by norm_num)
  simpa using h

/-- C5: `multiplyVector` fails with a dimension error exactly when the
vector's length differs from `this.columns`; otherwise it returns a vector
of length `this.rows` with component `i = Σ_k this(i,k) * v(k)`; in
particular `[[1,2,3],[4,5,6]] * [2,1,3] = [13, 31]`. -/
theorem C5_multiplyVector :
    (∀ (m : Matrix) (v : List ℚ),
      (v.length ≠ m.columns → ∃ e, m.multiplyVector v = .error e) ∧
      (v.length = m.columns → ∃ w, m.multiplyVector v = .ok w ∧
        w.length = m.rows ∧ ∀ i < m.rows,
          w.getD i 0 = ∑ k ∈ Finset.range m.columns, m.at' i k * v.getD k 0)) ∧
    (Matrix.construct 2 3 [[1,2,3],[4,5,6]]).multiplyVector [2,1,3] = .ok [13, 31] := by
  constructor
  · intro m v
    constructor
    · intro h
      exact ⟨_, by rw [Matrix.multiplyVector, if_neg h]⟩
    · intro h
      refine ⟨(List.range m.rows).map fun i =>
          ∑ k ∈ Finset.range m.columns, m.at' i k * v.getD k 0,
        by rw [Matrix.multiplyVector, if_pos h], by simp, ?_⟩
      intro i hi
      exact getD_map_range 0 hi
  · have h : (Matrix.construct 2 3 [[1,2,3],[4,5,6]]).multiplyVector [2,1,3]
        = .ok ((List.range 2).map fun i =>
          ∑ k ∈ Finset.range 3, (Matrix.construct 2 3 [[1,2,3],[4,5,6]]).at' i k
            * ([2,1,3] : List ℚ).getD k 0) := rfl
    rw [h, show List.range 2 = [0, 1] from rfl]
    norm_num [Finset.sum_range_succ, Matrix.at'_construct, List.getD]

/-- Witness for C5: a concrete length mismatch fails and a concrete
compatible product succeeds. -/
theorem C5_multiplyVector_witness :
    (∃ e, (Matrix.construct 2 3 []).multiplyVector [1, 2] = .error e) ∧
    (∃ w, (Matrix.construct 2 3 []).multiplyVector [1, 2, 3] = .ok w ∧
      w.length = 2 ∧ ∀ i < 2, w.getD i 0 = ∑ k ∈ Finset.range 3,
        (Matrix.construct 2 3 []).at' i k * ([1, 2, 3] : List ℚ).getD k 0) := by
  constructor
  · exact (C5_multiplyVector.1 _ _).1 (by decide)
  · exact (C5_multiplyVector.1 _ _).2 rfl

/-- C6: `equals(other)` returns true iff same `rows`, same `columns`, and
every corresponding cell is exactly equal (no epsilon tolerance); a
dimension mismatch yields `false` (the operation is total, it never
errors). -/
theorem C6_equals :
    ∀ a b : Matrix,
      a.equals b = true ↔
        a.rows = b.rows ∧ a.columns = b.columns ∧
          ∀ i < a.rows, ∀ j < a.columns, a.at' i j = b.at' i j :=
  fun a b => Matrix.equals_true_iff a b

/-- Witness for C6: concrete equal matrices compare equal, and a dimension
mismatch compares unequal. -/
theorem C6_equals_witness :
    (Matrix.construct 2 2 [[1,2],[2,3]]).equals (Matrix.construct 2 2 [[1,2],[2,3]]) = true ∧
    (Matrix.construct 2 2 [[1,2],[2,3]]).equals (Matrix.construct 1 2 [[1,2]]) ≠ true := by
  constructor
  · exact (C6_equals _ _).mpr ⟨rfl, rfl, fun i _ j _ => rfl⟩
  · intro h
    obtain ⟨h1, -, -⟩ := (C6_equals _ _).mp h
    exact absurd h1 (by decide)

/-- C7: `indexOf(value)` returns the `(row, col)` of the first occurrence
of the value in row-major scan order, and `(-1, -1)` when the value occurs
nowhere; concretely `indexOf([[1,2],[3,4]], 3) = (1,0)` and
`indexOf([[1,2],[3,4]], 5) = (-1,-1)`. -/
theorem C7_indexOf :
    (∀ (m : Matrix) (x : ℚ),
      ((∀ row ∈ m.values, x ∉ row) → m.indexOf x = (-1, -1)) ∧
      ((∃ row ∈ m.values, x ∈ row) → ∃ i j : Nat,
        m.indexOf x = ((i : Int), (j : Int)) ∧
        i < m.values.length ∧ j < (m.values.getD i []).length ∧
        (m.values.getD i []).getD j 0 = x ∧
        (∀ i' < i, ∀ v ∈ m.values.getD i' [], v ≠ x) ∧
        (∀ j' < j, (m.values.getD i []).getD j' 0 ≠ x))) ∧
    (Matrix.construct 2 2 [[1,2],[3,4]]).indexOf 3 = (1, 0) ∧
    (Matrix.construct 2 2 [[1,2],[3,4]]).indexOf 5 = (-1, -1) := by
  refine ⟨?_, by decide, by decide⟩
  intro m x
  constructor
  · intro habs
    have hnone : findInGrid m.values x = none := by
      rw [findInGrid_eq_none_iff]
      intro row hrow v hv he
      exact habs row hrow (he ▸ hv)
    rw [Matrix.indexOf, hnone]
  · intro hex
    cases hg : findInGrid m.values x with
    | none =>
      exfalso
      obtain ⟨row, hrow, hx⟩ := hex
      exact (findInGrid_eq_none_iff m.values x).mp hg row hrow x hx rfl
    | some q =>
      obtain ⟨i, j⟩ := q
      obtain ⟨h1, h2, h3, h4, h5⟩ := findInGrid_eq_some m.values x i j hg
      exact ⟨i, j, by rw [Matrix.indexOf, hg], h1, h2, h3, h4, h5⟩

/-- Witness for C7: the absent and present branches at a concrete matrix. -/
theorem C7_indexOf_witness :
    (Matrix.construct 2 2 [[1,2],[3,4]]).indexOf 7 = (-1, -1) ∧
    (∃ i j : Nat,
      (Matrix.construct 2 2 [[1,2],[3,4]]).indexOf 4 = ((i : Int), (j : Int)) ∧
      i < (Matrix.construct 2 2 [[1,2],[3,4]]).values.length ∧
      j < ((Matrix.construct 2 2 [[1,2],[3,4]]).values.getD i []).length ∧
      ((Matrix.construct 2 2 [[1,2],[3,4]]).values.getD i []).getD j 0 = 4 ∧
      (∀ i' < i, ∀ v ∈ (Matrix.construct 2 2 [[1,2],[3,4]]).values.getD i' [], v ≠ 4) ∧
      (∀ j' < j, ((Matrix.construct 2 2 [[1,2],[3,4]]).values.getD i []).getD j' 0 ≠ 4)) := by
  constructor
  · exact (C7_indexOf.1 _ _).1 (by decide)
  · exact (C7_indexOf.1 _ _).2 (by decide)

/-- C8: `min()` / `max()` return the extremum over all cells of a matrix
with at least one cell, and the sentinel value 0 (without failing) on a
matrix with zero cells. -/
theorem C8_minmax :
    (∀ m : Matrix,
      (m.cells = [] → m.max = 0 ∧ m.min = 0) ∧
      (m.cells ≠ [] →
        (m.max ∈ m.cells ∧ ∀ v ∈ m.cells, v ≤ m.max) ∧
        (m.min ∈ m.cells ∧ ∀ v ∈ m.cells, m.min ≤ v))) ∧
    (Matrix.construct 2 0 []).max = 0 ∧ (Matrix.construct 2 0 []).min = 0 := by
  refine ⟨?_, rfl, rfl⟩
  intro m
  constructor
  · intro h
    rw [Matrix.max, Matrix.min, h]
    exact ⟨rfl, rfl⟩
  · intro h
    exact ⟨listMax_spec _ h, listMin_spec _ h⟩

/-- Witness for C8: the zero-cell branch at a 2×0 matrix and the nonempty
branch at a concrete 1×2 matrix. -/
theorem C8_minmax_witness :
    ((Matrix.construct 2 0 []).max = 0 ∧ (Matrix.construct 2 0 []).min = 0) ∧
    ((Matrix.construct 1 2 [[3, 7]]).max ∈ (Matrix.construct 1 2 [[3, 7]]).cells ∧
      ∀ v ∈ (Matrix.construct 1 2 [[3, 7]]).cells, v ≤ (Matrix.construct 1 2 [[3, 7]]).max) := by
  refine ⟨(C8_minmax.1 _).1 rfl, ((C8_minmax.1 _).2 ?_).1⟩
  exact List.cons_ne_nil _ _

/-- C9 counterexample: on the one-vector heap `[[5]]` (a `Vector` whose
array is heap cell 0), `addAValue` returns a vector backed by a fresh heap
cell (reference 1, not 0), so writing through the returned vector's array
leaves the receiver's array unchanged — the returned object does not share
the receiver's storage. -/
theorem C9_counterexample :
    (addAValue [[5]] 0).2 ≠ 0 ∧
    (addAValue [[5]] 0).1.getD 0 [] = [5, 0] ∧
    (addAValue [[5]] 0).1.getD 1 [] = [5, 0] ∧
    ((addAValue [[5]] 0).1.set 1 [9, 0]).getD 0 [] = [5, 0] := by decide

/-- C9 (amended): `addAValue()` mutates the receiver — its array becomes
the old array with one 0 appended, so `rows` grows by 1 — and returns a new
`Vector` whose array is a fresh heap allocation holding the same contents
as the receiver's mutated array (equal values, distinct storage). -/
theorem C9_addAValue :
    ∀ (h : Heap) (self : Nat), self < h.length →
      (addAValue h self).2 = h.length ∧
      (addAValue h self).2 ≠ self ∧
      (addAValue h self).1.getD self [] = h.getD self [] ++ [0] ∧
      vecRows (addAValue h self).1 self = vecRows h self + 1 ∧
      (addAValue h self).1.getD (addAValue h self).2 [] = h.getD self [] ++ [0] := by
  intro h self hs
  have hlen : (h.set self (h.getD self [] ++ [0])).length = h.length := by simp
  have hget : (h.set self (h.getD self [] ++ [0])).getD self [] = h.getD self [] ++ [0] := by
    rw [List.getD_eq_getElem?_getD, List.getElem?_set_eq_of_lt _ (by simpa using hs)]
    rfl
  have hs1 : self < (h.set self (h.getD self [] ++ [0])).length := by
    rw [hlen]; exact hs
  have hfst : (addAValue h self).1
      = (h.set self (h.getD self [] ++ [0]))
        ++ [ctorValues (some ((h.set self (h.getD self [] ++ [0])).getD self []))] := rfl
  have hsnd : (addAValue h self).2 = (h.set self (h.getD self [] ++ [0])).length := rfl
  have hfront : (addAValue h self).1.getD self [] = h.getD self [] ++ [0] := by
    rw [hfst, List.getD_eq_getElem?_getD, List.getElem?_append, if_pos hs1,
      ← List.getD_eq_getElem?_getD]
    exact hget
  refine ⟨?_, ?_, hfront, ?_, ?_⟩
  · rw [hsnd, hlen]
  · rw [hsnd, hlen]; omega
  · show ((addAValue h self).1.getD self []).length = (h.getD self []).length + 1
    rw [hfront]
    simp
  · rw [hfst, hsnd, List.getD_eq_getElem?_getD, List.getElem?_append,
      if_neg (Nat.lt_irrefl _)]
    simp [ctorValues_some, Nat.sub_self]
    simpa [List.getD_eq_getElem?_getD] using hget

/-- Witness for C9 (amended) on the concrete heap `[[5]]`. -/
theorem C9_addAValue_witness :
    (addAValue [[5]] 0).2 = 1 ∧
    (addAValue [[5]] 0).2 ≠ 0 ∧
    (addAValue [[5]] 0).1.getD 0 [] = ([5] : List ℚ) ++ [0] ∧
    vecRows (addAValue [[5]] 0).1 0 = vecRows [[5]] 0 + 1 ∧
    (addAValue [[5]] 0).1.getD (addAValue [[5]] 0).2 [] = ([5] : List ℚ) ++ [0] :=
  C9_addAValue [[5]] 0 (by decide)

/-- C10: `Vector.divide` throws a dimension error iff the two vectors have
different lengths; with equal lengths it never throws, and component `i`
of the result is `u(i)/v(i)` when `v(i) ≠ 0` and `u(i)` unchanged when
`v(i) = 0`. -/
theorem C10_divide :
    ∀ u v : List ℚ,
      ((∃ e, Vector.divide u v = .error e) ↔ Vector.rows u ≠ Vector.rows v) ∧
      (Vector.rows u = Vector.rows v → ∃ w, Vector.divide u v = .ok w ∧
        w.length = u.length ∧ ∀ i < u.length,
          w.getD i 0 = if v.getD i 0 = 0 then u.getD i 0
            else u.getD i 0 / v.getD i 0) := by
  intro u v
  have hok : Vector.rows u = Vector.rows v →
      Vector.divide u v = .ok (u.mapIdx fun i val =>
        if v.getD i 0 = 0 then val else val / v.getD i 0) := by
    intro h
    rw [Vector.divide, if_pos h]
  constructor
  · constructor
    · rintro ⟨e, he⟩ hlen
      rw [hok hlen] at he
      simp at he
    · intro hne
      exact ⟨_, by rw [Vector.divide, if_neg hne]⟩
  · intro h
    refine ⟨_, hok h, by simp, ?_⟩
    intro i hi
    have hi' : i < (u.mapIdx fun i val =>
        if v.getD i 0 = 0 then val else val / v.getD i 0).length := by
      simpa using hi
    have h2 : u.get ⟨i, hi⟩ = u.getD i 0 := by
      rw [List.get_eq_getElem, List.getD_eq_getElem u 0 hi]
    rw [List.getD_eq_getElem _ _ hi']
    have h3 := List.get_mapIdx u
      (fun i val => if v.getD i 0 = 0 then val else val / v.getD i 0) i hi
    rw [h2] at h3
    exact h3

/-- Witness for C10: a concrete length mismatch errors; a concrete
equal-length division (with a zero divisor component) succeeds. -/
theorem C10_divide_witness :
    (∃ e, Vector.divide [1] [] = .error e) ∧
    (∃ w, Vector.divide [1, 2] [0, 4] = .ok w ∧ w.length = 2 ∧
      ∀ i < 2, w.getD i 0 = if ([0, 4] : List ℚ).getD i 0 = 0
        then ([1, 2] : List ℚ).getD i 0
        else ([1, 2] : List ℚ).getD i 0 / ([0, 4] : List ℚ).getD i 0) := by
  constructor
  · exact (C10_divide _ _).1.mpr (by decide)
  · exact (C10_divide _ _).2 rfl

end TsMatrix
